import Mathlib

/-!
Verification of the cp_pipe defect-finding core against its design
specification.

The repository ships two source files: `python/lsst/cp/pipe/utils.py`
(fully embedded below: `sigmaClipCorrection`, `countMaskedPixels`,
`arrangeFlatsByExpId`, the control flow of `irlsFit`) and
`tests/test_defects.py`, the test suite of `FindDefectsTask`.  The
task methods exercised by that test suite
(`maskBlocksIfIntermitentBadPixelsInColumn`, `_postProcessDefectSets`,
`_setEdgeBits`, `_getNumGoodPixels`) live in a module that is not part
of the sources; those operations are modelled from the specification,
as indicated in their doc comments, and checked against the concrete
expectations recorded in `tests/test_defects.py`.
-/

set_option maxRecDepth 8000

namespace CpPipe

/-! ## Data model: defect boxes and defect sets -/

/-- An axis-aligned integer bounding box on the pixel grid, given by its
minimum corner `(x, y)` and its extent `(width, height)`; transcription of
the `(x, y, sx, sy)` tuples / `Box2I(Point2I(x, y), Extent2I(sx, sy))`
boxes used throughout `tests/test_defects.py`. -/
structure Box where
  x : Nat
  y : Nat
  width : Nat
  height : Nat
deriving DecidableEq

/-- Pixel membership of a box: `(px, py)` lies in the half-open ranges
`[x, x + width) × [y, y + height)`. -/
def Box.coversB (b : Box) (p : Nat × Nat) : Bool :=
  decide (b.x ≤ p.1 ∧ p.1 < b.x + b.width ∧ b.y ≤ p.2 ∧ p.2 < b.y + b.height)

/-- A defect set is a collection of boxes; per the data model its identity
is its covered-pixel set, so all comparisons below are pixel-coverage
comparisons. -/
abbrev DefectSet := List Box

/-- Pixel coverage of a defect set: some box of the set covers the pixel. -/
def setCovers (ds : DefectSet) (p : Nat × Nat) : Bool :=
  ds.any (fun b => b.coversB p)

/-! ## DefectSetConsolidator (`_postProcessDefectSets`) -/

/-- The closed combination-policy variant `{AND, OR, FRACTION(f)}` of the
data model; the fraction is carried only by the `FRACTION` tag. -/
inductive CombinationMode where
  | AND : CombinationMode
  | OR : CombinationMode
  | FRACTION : ℚ → CombinationMode

/-- Number of input defect sets marking pixel `p` defective (the per-pixel
count `c` over the rasterized input masks). -/
def countCovering (sets : List DefectSet) (p : Nat × Nat) : Nat :=
  (sets.filter (fun ds => setCovers ds p)).length

/-- Modelled from the spec: `FindDefectsTask._postProcessDefectSets` is not
under `src/` (only its tests are), so the consolidator is modelled from
§4.4 of the design: rasterize each input set, count per pixel how many
input masks mark it, and threshold the count by the mode (`AND`: `c = N`,
`OR`: `c ≥ 1`, `FRACTION f`: `c / N ≥ f`).  Re-extraction of connected
components preserves pixel coverage, so the consolidated result is modelled
by its pixel-coverage function. -/
def consolidatePixel (mode : CombinationMode) (sets : List DefectSet) (p : Nat × Nat) : Bool :=
  match mode with
  | CombinationMode.AND => decide (countCovering sets p = sets.length)
  | CombinationMode.OR => decide (1 ≤ countCovering sets p)
  | CombinationMode.FRACTION f => decide (f ≤ (countCovering sets p : ℚ) / (sets.length : ℚ))

/-- Validity of the fraction carried by a mode: the configuration surface
restricts `combinationFraction` to `(0, 1]`. -/
def fractionValid : CombinationMode → Prop
  | CombinationMode.FRACTION f => 0 < f ∧ f ≤ 1
  | _ => True

/-! ## IntermittentColumnMerger (`maskBlocksIfIntermitentBadPixelsInColumn`) -/

/-- Whether box `b` intersects column `x`. -/
def touchesColumn (b : Box) (x : Nat) : Bool :=
  decide (b.x ≤ x ∧ x < b.x + b.width)

/-- The vertical interval `(first row, last row)` a box contributes to any
column it touches. -/
def boxInterval (b : Box) : Nat × Nat :=
  (b.y, b.y + b.height - 1)

/-- Ordering of vertical intervals by start row. -/
def leStart (a b : Nat × Nat) : Prop :=
  a.1 ≤ b.1

instance : DecidableRel leStart :=
  fun a b => Nat.decLe a.1 b.1

instance : IsTotal (Nat × Nat) leStart :=
  ⟨fun a b => Nat.le_total a.1 b.1⟩

instance : IsTrans (Nat × Nat) leStart :=
  ⟨fun _ _ _ hab hbc => Nat.le_trans hab hbc⟩

/-- The distinct vertical intervals of the boxes intersecting column `x`,
sorted by start row. -/
def columnIntervals (ds : DefectSet) (x : Nat) : List (Nat × Nat) :=
  List.insertionSort leStart (((ds.filter (fun b => touchesColumn b x)).map boxInterval).dedup)

/-- `true` when every gap of good rows between consecutive intervals of the
sorted list is at most `gapT` (the gap between `(_, e)` and `(s2, _)` holds
`s2 - e - 1` rows). -/
def gapsLE (gapT : Nat) : List (Nat × Nat) → Bool
  | a :: b :: rest => decide (b.1 - a.2 - 1 ≤ gapT) && gapsLE gapT (b :: rest)
  | _ => true

/-- Qualification rule as the specification words it (§4.3): the column is
touched, holds at least `badT` distinct intervals, and every gap between
consecutive intervals is at most `gapT`. -/
def specQualifies (badT gapT : Nat) (ds : DefectSet) (x : Nat) : Bool :=
  !(columnIntervals ds x).isEmpty
    && decide (badT ≤ (columnIntervals ds x).length)
    && gapsLE gapT (columnIntervals ds x)

/-- Modelled from the spec:
`FindDefectsTask.maskBlocksIfIntermitentBadPixelsInColumn` is not under
`src/` (only its tests are).  This is the merger exactly as §4.3 words it:
a qualifying column is replaced by one width-1 box running from the minimum
row of its first interval to the maximum row of its last interval; all
other pixels pass through.  The result is modelled by its pixel-coverage
function. -/
def specMergerCoverage (badT gapT : Nat) (ds : DefectSet) (p : Nat × Nat) : Bool :=
  if specQualifies badT gapT ds p.1 then
    decide (((columnIntervals ds p.1).headD (0, 0)).1 ≤ p.2
      ∧ p.2 ≤ ((columnIntervals ds p.1).getLastD (0, 0)).2)
  else setCovers ds p

/-- Accumulating pass of `splitBlocks`: `(s, e)` is the block under
construction; an interval within `gapT` good rows of it is absorbed,
a farther one starts a new block. -/
def splitBlocksGo (gapT s e : Nat) : List (Nat × Nat) → List (Nat × Nat)
  | [] => [(s, e)]
  | (s2, e2) :: rest =>
      if s2 - e - 1 ≤ gapT then splitBlocksGo gapT s (max e e2) rest
      else (s, e) :: splitBlocksGo gapT s2 e2 rest

/-- Group a start-sorted interval list into maximal blocks, splitting
wherever the gap of good rows between consecutive intervals exceeds
`gapT`. -/
def splitBlocks (gapT : Nat) : List (Nat × Nat) → List (Nat × Nat)
  | [] => []
  | (s, e) :: rest => splitBlocksGo gapT s e rest

/-- Qualification by interval count alone, the rule actually demanded by
`test_maskBlocksIfIntermitentBadPixelsInColumn`. -/
def countQualifies (badT : Nat) (ds : DefectSet) (x : Nat) : Bool :=
  !(columnIntervals ds x).isEmpty && decide (badT ≤ (columnIntervals ds x).length)

/-- Modelled from the spec:
`FindDefectsTask.maskBlocksIfIntermitentBadPixelsInColumn` is not under
`src/` (only its tests are).  §4.3 as written cannot reproduce the
repository's own test, so this model keeps the
spec's reading amended by the minimum the test forces: a column qualifies
on its interval count alone, and its intervals are merged per maximal
block of intervals separated by gaps of at most `gapT` good rows, one
width-1 box per block.  Pixels of non-qualifying columns pass through.
The result is modelled by its pixel-coverage function. -/
def amendedMergerCoverage (badT gapT : Nat) (ds : DefectSet) (p : Nat × Nat) : Bool :=
  if countQualifies badT ds p.1 then
    (splitBlocks gapT (columnIntervals ds p.1)).any (fun blk => decide (blk.1 ≤ p.2 ∧ p.2 ≤ blk.2))
  else setCovers ds p

/-! ### Concrete input of `FindDefectsTaskTestCase` -/

/-- The defect boxes injected by `FindDefectsTaskTestCase.setUp`
(`brightDefects` followed by `darkDefects`, as `(x, y, width, height)`). -/
def allDefectsInput : DefectSet :=
  [⟨0, 15, 3, 3⟩, ⟨100, 123, 1, 1⟩, ⟨77, 90, 3, 3⟩,
   ⟨50, 11, 3, 1⟩, ⟨50, 14, 3, 1⟩, ⟨50, 20, 5, 1⟩, ⟨50, 26, 7, 1⟩, ⟨50, 33, 10, 1⟩,
   ⟨50, 55, 3, 1⟩, ⟨50, 60, 3, 1⟩, ⟨50, 63, 5, 1⟩, ⟨50, 67, 7, 1⟩, ⟨50, 74, 10, 1⟩,
   ⟨15, 0, 1, 1⟩, ⟨33, 62, 2, 2⟩, ⟨95, 21, 2, 2⟩,
   ⟨25, 11, 3, 1⟩, ⟨25, 14, 3, 1⟩, ⟨25, 20, 5, 1⟩, ⟨25, 26, 7, 1⟩, ⟨25, 33, 10, 1⟩,
   ⟨25, 55, 3, 1⟩, ⟨25, 60, 3, 1⟩, ⟨25, 63, 5, 1⟩, ⟨25, 67, 7, 1⟩, ⟨25, 74, 10, 1⟩]

/-- The boxes `test_maskBlocksIfIntermitentBadPixelsInColumn` requires in
the merger output (`defectsBlocksInputTrue`, each `Box2I(min, max)`
rewritten as min corner and extent). -/
def defectsBlocksInputTrue : DefectSet :=
  [⟨50, 11, 1, 23⟩, ⟨51, 11, 1, 23⟩, ⟨52, 11, 1, 23⟩,
   ⟨50, 55, 1, 20⟩, ⟨51, 55, 1, 20⟩, ⟨52, 55, 1, 20⟩,
   ⟨25, 11, 1, 23⟩, ⟨26, 11, 1, 23⟩, ⟨27, 11, 1, 23⟩,
   ⟨25, 55, 1, 20⟩, ⟨26, 55, 1, 20⟩, ⟨27, 55, 1, 20⟩]

/-! ## EdgeMasker (`_setEdgeBits`) and pixel accounting -/

/-- Whether pixel `(x, y)` of a `W × H` grid lies within `hE` columns of
the left/right edges or `vE` rows of the top/bottom edges
(`W ≤ x + hE` is the subtraction-free form of `W - hE ≤ x`). -/
def isEdgePixel (W H hE vE x y : Nat) : Bool :=
  decide (x < hE ∨ W ≤ x + hE ∨ y < vE ∨ H ≤ y + vE)

/-- Modelled from the spec: `FindDefectsTask._setEdgeBits` is not under
`src/` (only its tests are).  Per §4.2 it OR-s the EDGE bit onto every
border pixel; the EDGE plane is modelled as a boolean mask function. -/
def setEdgeBits (W H hE vE : Nat) (mask : Nat → Nat → Bool) : Nat → Nat → Bool :=
  fun x y => mask x y || isEdgePixel W H hE vE x y

/-- The EDGE plane of a freshly cloned exposure: no pixel flagged. -/
def emptyEdgeMask : Nat → Nat → Bool :=
  fun _ _ => false

/-- Number of flagged pixels of a boolean mask plane over the `W × H`
grid. -/
def countMaskedBool (W H : Nat) (mask : Nat → Nat → Bool) : Nat :=
  ((Finset.range W ×ˢ Finset.range H).filter (fun p => mask p.1 p.2 = true)).card

/-- Embedding of `countMaskedPixels` (`utils.py`): the mask is a plane of
named bits packed into a `Nat` per pixel, a plane name is a bit index `b`
with plane bit mask `2 ^ b` (`getPlaneBitMask`), and the function counts
the pixels whose mask value ANDed with the plane bit mask is nonzero. -/
def countMaskedPixels (W H : Nat) (mask : Nat → Nat → Nat) (b : Nat) : Nat :=
  ((Finset.range W ×ˢ Finset.range H).filter (fun p => mask p.1 p.2 &&& 2 ^ b ≠ 0)).card

/-- Modelled from the spec: `FindDefectsTask._getNumGoodPixels` is not
under `src/` (only its tests are).  Per §4.5 the good-pixel count for a
named bit is the total pixel count minus the pixels carrying that bit. -/
def goodPixelCount (W H : Nat) (mask : Nat → Nat → Nat) (b : Nat) : Nat :=
  W * H - countMaskedPixels W H mask b

/-- OR bit `b` onto every pixel of region `r` (the
`testImage.mask[box] |= BIT` step of `test_getNumGoodPixels`). -/
def flagRegion (r : Box) (b : Nat) (mask : Nat → Nat → Nat) : Nat → Nat → Nat :=
  fun x y => if r.coversB (x, y) then mask x y ||| 2 ^ b else mask x y

/-! ## `arrangeFlatsByExpId` (`utils.py`) -/

/-- Embedding of `arrangeFlatsByExpId`: zip the exposures with their ids,
sort by id, then for every even python index `jPair` store under key
`jPair / 2` the exposure at `jPair` followed by the one at `jPair + 1`
when it exists.  The `try/except IndexError: pass` of the source appends
the first element before the failing index access, which the
`Option.toList` of the second lookup reproduces; the dict with its
distinct fresh keys is an association list. -/
def arrangeFlatsByExpId {α : Type} (exposureList : List α) (exposureIdList : List Nat) :
    List (Nat × List (α × Nat)) :=
  (List.range ((exposureList.zip exposureIdList).insertionSort
      (fun p q => p.2 ≤ q.2)).length).filterMap
    (fun jPair =>
      if (jPair + 1) % 2 ≠ 0 then
        some (jPair / 2,
          (((exposureList.zip exposureIdList).insertionSort (fun p q => p.2 ≤ q.2))[jPair]?).toList
            ++ (((exposureList.zip exposureIdList).insertionSort
                (fun p q => p.2 ≤ q.2))[jPair + 1]?).toList)
      else none)

/-! ## `irlsFit` (`utils.py`) -/

/-- The `if/elif` chain of `irlsFit` that selects the reweighting scheme:
`true` when the iteration computes weights, `false` on the final `else`
branch that raises `RuntimeError` for an unknown type. -/
def irlsWeightStep (weightType : String) : Bool :=
  if weightType == "Cauchy" then true
  else if weightType == "Anderson" then true
  else if weightType == "bisquare" then true
  else if weightType == "box" then true
  else if weightType == "Welsch" then true
  else if weightType == "Huber" then true
  else if weightType == "logistic" then true
  else if weightType == "Fair" then true
  else false

/-- The eight weight-type names `irlsFit` recognizes. -/
def recognizedWeightTypes : List String :=
  ["Cauchy", "Anderson", "bisquare", "box", "Welsch", "Huber", "logistic", "Fair"]

/-- The `for iteration in range(10)` loop of `irlsFit`: each iteration
first selects the weighting (raising on an unknown type) and then runs
`fitLeastSq` once more.  `fitsDone` counts completed `fitLeastSq` calls;
an `Except.error` carries the count at the moment the `RuntimeError` is
raised. -/
def irlsLoop (weightType : String) : Nat → Nat → Except Nat Nat
  | 0, fitsDone => Except.ok fitsDone
  | n + 1, fitsDone =>
      if irlsWeightStep weightType then irlsLoop weightType n (fitsDone + 1)
      else Except.error fitsDone

/-- Control-flow embedding of `irlsFit`: the initial `fitLeastSq` call
always runs first (count `1`), then the ten reweighting iterations.  The
numeric content of `fitLeastSq`, the residuals and the weights never
influences whether the `RuntimeError` is raised, so it is abstracted into
the count of completed least-squares fits. -/
def irlsFit (weightType : String) : Except Nat Nat :=
  irlsLoop weightType 10 1

/-! ## `sigmaClipCorrection` (`utils.py`) -/

open Real in
/-- The standard normal density `scipy.stats.norm.pdf`. -/
noncomputable def normPdf (x : ℝ) : ℝ :=
  Real.exp (-(x ^ 2) / 2) / Real.sqrt (2 * π)

/-- The standard normal cumulative distribution `scipy.stats.norm.cdf`. -/
noncomputable def normCdf (x : ℝ) : ℝ :=
  ProbabilityTheory.cdf (ProbabilityTheory.gaussianReal 0 1) x

/-- Embedding of `sigmaClipCorrection`: the clipped-variance factor
`varFactor = 1 - 2 k φ(k) / (Φ(k) - Φ(-k))` followed by the returned
scale `1 / sqrt(varFactor)`, exactly as the two source lines compute. -/
noncomputable def sigmaClipCorrection (nSigClip : ℝ) : ℝ :=
  (fun varFactor => 1 / Real.sqrt varFactor)
    (1 - 2 * nSigClip * normPdf nSigClip / (normCdf nSigClip - normCdf (-nSigClip)))

/-! ## Helper lemmas -/

/-- Dropping the last box of a defect set never adds coverage. -/
theorem setCovers_dropLast_false (D : DefectSet) (p : Nat × Nat)
    (h : setCovers D p = false) : setCovers D.dropLast p = false := by
  cases hd : setCovers D.dropLast p with
  | false => rfl
  | true =>
      rw [setCovers, List.any_eq_true] at hd
      obtain ⟨b, hb, hcov⟩ := hd
      have hbD : b ∈ D := (List.dropLast_sublist D).subset hb
      have htrue : setCovers D p = true := by
        rw [setCovers, List.any_eq_true]
        exact ⟨b, hbD, hcov⟩
      rw [htrue] at h
      exact absurd h (by simp)

/-- The per-pixel vote over `n` copies of `D` followed by further sets. -/
theorem countCovering_replicate_append (n : Nat) (D : DefectSet) (l : List DefectSet)
    (p : Nat × Nat) :
    countCovering (List.replicate n D ++ l) p
      = (if setCovers D p then n else 0) + countCovering l p := by
  cases h : setCovers D p <;>
    simp [countCovering, List.filter_append, List.filter_replicate, h]

/-- The per-pixel vote over `n` identical copies of `D`. -/
theorem countCovering_replicate (n : Nat) (D : DefectSet) (p : Nat × Nat) :
    countCovering (List.replicate n D) p = if setCovers D p then n else 0 := by
  have := countCovering_replicate_append n D [] p
  simpa [countCovering] using this

/-- The non-edge pixels of a `W × H` grid with margins `(hE, vE)` form the
interior rectangle, of `(W - 2 hE) * (H - 2 vE)` pixels. -/
theorem card_filter_interior (W H hE vE : Nat) (h1 : 2 * hE ≤ W) (h2 : 2 * vE ≤ H) :
    ((Finset.range W ×ˢ Finset.range H).filter
        (fun p => ¬ isEdgePixel W H hE vE p.1 p.2 = true)).card
      = (W - 2 * hE) * (H - 2 * vE) := by
  have hset : ((Finset.range W ×ˢ Finset.range H).filter
        (fun p => ¬ isEdgePixel W H hE vE p.1 p.2 = true))
      = Finset.Ico hE (W - hE) ×ˢ Finset.Ico vE (H - vE) := by
    ext p
    simp only [Finset.mem_filter, Finset.mem_product, Finset.mem_range, Finset.mem_Ico,
      isEdgePixel, decide_eq_true_eq]
    omega
  rw [hset, Finset.card_product, Nat.card_Ico, Nat.card_Ico]
  congr 1 <;> omega

/-- The in-grid pixels of a box form a `width × height` rectangle. -/
theorem card_filter_box (W H : Nat) (r : Box)
    (h1 : r.x + r.width ≤ W) (h2 : r.y + r.height ≤ H) :
    ((Finset.range W ×ˢ Finset.range H).filter (fun p => r.coversB p = true)).card
      = r.width * r.height := by
  have hset : ((Finset.range W ×ˢ Finset.range H).filter (fun p => r.coversB p = true))
      = Finset.Ico r.x (r.x + r.width) ×ˢ Finset.Ico r.y (r.y + r.height) := by
    ext p
    simp only [Finset.mem_filter, Finset.mem_product, Finset.mem_range, Finset.mem_Ico,
      Box.coversB, decide_eq_true_eq]
    omega
  rw [hset, Finset.card_product, Nat.card_Ico, Nat.card_Ico]
  congr 1 <;> omega

/-- A mask value ANDed with a plane bit mask is nonzero exactly when the
plane's bit is set. -/
theorem and_two_pow_ne_zero (n b : Nat) : (n &&& 2 ^ b ≠ 0) ↔ n.testBit b = true := by
  rw [Nat.and_two_pow]
  cases h : n.testBit b <;> simp [h, (Nat.two_pow_pos b).ne']

/-- The per-column interval list is sorted by start row. -/
theorem columnIntervals_pairwise (ds : DefectSet) (x : Nat) :
    List.Pairwise leStart (columnIntervals ds x) :=
  List.sorted_insertionSort leStart _

/-- The interval a box contributes to a column it touches appears among
that column's distinct sorted intervals. -/
theorem mem_columnIntervals (ds : DefectSet) (x : Nat) (b : Box)
    (hb : b ∈ ds) (ht : touchesColumn b x = true) :
    boxInterval b ∈ columnIntervals ds x := by
  unfold columnIntervals
  rw [List.mem_insertionSort, List.mem_dedup, List.mem_map]
  exact ⟨b, List.mem_filter.mpr ⟨hb, ht⟩, rfl⟩

/-- Every interval handed to the accumulating block pass — including the
accumulator itself — ends up inside one of the produced blocks. -/
theorem splitBlocksGo_covers (gapT : Nat) (l : List (Nat × Nat)) :
    ∀ s0 e0 : Nat, List.Pairwise leStart l → (∀ iv ∈ l, s0 ≤ iv.1) →
      (∃ blk ∈ splitBlocksGo gapT s0 e0 l, blk.1 ≤ s0 ∧ e0 ≤ blk.2)
        ∧ (∀ iv ∈ l, ∃ blk ∈ splitBlocksGo gapT s0 e0 l, blk.1 ≤ iv.1 ∧ iv.2 ≤ blk.2) := by
  induction l with
  | nil =>
      intro s0 e0 _ _
      refine ⟨⟨(s0, e0), ?_, le_refl _, le_refl _⟩, ?_⟩
      · simp [splitBlocksGo]
      · intro iv hiv
        cases hiv
  | cons hd rest ih =>
      intro s0 e0 hpair hs
      obtain ⟨s2, e2⟩ := hd
      obtain ⟨hhead, hrest⟩ := List.pairwise_cons.mp hpair
      by_cases hgap : s2 - e0 - 1 ≤ gapT
      · have hs' : ∀ iv ∈ rest, s0 ≤ iv.1 := by
          intro iv hiv
          exact le_trans (hs (s2, e2) (List.mem_cons_self _ _)) (hhead iv hiv)
        have IH := ih s0 (max e0 e2) hrest hs'
        have hunf : splitBlocksGo gapT s0 e0 ((s2, e2) :: rest)
            = splitBlocksGo gapT s0 (max e0 e2) rest := by
          simp [splitBlocksGo, hgap]
        rw [hunf]
        obtain ⟨⟨blk, hblk, hblk1, hblk2⟩, hall⟩ := IH
        refine ⟨⟨blk, hblk, hblk1, le_trans (le_max_left _ _) hblk2⟩, ?_⟩
        intro iv hiv
        rcases List.mem_cons.mp hiv with heq | hmem
        · subst heq
          exact ⟨blk, hblk, le_trans hblk1 (hs (s2, e2) (List.mem_cons_self _ _)),
            le_trans (le_max_right e0 e2) hblk2⟩
        · exact hall iv hmem
      · have IH := ih s2 e2 hrest (fun iv hiv => hhead iv hiv)
        have hunf : splitBlocksGo gapT s0 e0 ((s2, e2) :: rest)
            = (s0, e0) :: splitBlocksGo gapT s2 e2 rest := by
          simp [splitBlocksGo, hgap]
        rw [hunf]
        obtain ⟨⟨blk, hblk, hblk1, hblk2⟩, hall⟩ := IH
        refine ⟨⟨(s0, e0), List.mem_cons_self _ _, le_refl _, le_refl _⟩, ?_⟩
        intro iv hiv
        rcases List.mem_cons.mp hiv with heq | hmem
        · subst heq
          exact ⟨blk, List.mem_cons_of_mem _ hblk, hblk1, hblk2⟩
        · obtain ⟨blk', hblk', h1, h2⟩ := hall iv hmem
          exact ⟨blk', List.mem_cons_of_mem _ hblk', h1, h2⟩

/-- Every interval of a start-sorted list lies inside one of the maximal
gap-bounded blocks. -/
theorem splitBlocks_covers (gapT : Nat) (l : List (Nat × Nat))
    (hpair : List.Pairwise leStart l) (iv : Nat × Nat) (hiv : iv ∈ l) :
    ∃ blk ∈ splitBlocks gapT l, blk.1 ≤ iv.1 ∧ iv.2 ≤ blk.2 := by
  cases l with
  | nil => cases hiv
  | cons hd rest =>
      obtain ⟨s, e⟩ := hd
      obtain ⟨hhead, hrest⟩ := List.pairwise_cons.mp hpair
      have H := splitBlocksGo_covers gapT rest s e hrest (fun iv' hiv' => hhead iv' hiv')
      rcases List.mem_cons.mp hiv with heq | hmem
      · subst heq
        exact H.1
      · exact H.2 iv hmem

/-- Both bounds of every block built by the accumulating pass come from
the accumulator or from the interval list. -/
theorem splitBlocksGo_endpoints (gapT : Nat) (l : List (Nat × Nat)) :
    ∀ s0 e0 : Nat, ∀ blk ∈ splitBlocksGo gapT s0 e0 l,
      (blk.1 = s0 ∨ ∃ iv ∈ l, iv.1 = blk.1) ∧ (blk.2 = e0 ∨ ∃ iv ∈ l, iv.2 = blk.2) := by
  induction l with
  | nil =>
      intro s0 e0 blk hblk
      simp only [splitBlocksGo, List.mem_singleton] at hblk
      subst hblk
      exact ⟨Or.inl rfl, Or.inl rfl⟩
  | cons hd rest ih =>
      intro s0 e0 blk hblk
      obtain ⟨s2, e2⟩ := hd
      by_cases hgap : s2 - e0 - 1 ≤ gapT
      · rw [show splitBlocksGo gapT s0 e0 ((s2, e2) :: rest)
            = splitBlocksGo gapT s0 (max e0 e2) rest from by simp [splitBlocksGo, hgap]] at hblk
        obtain ⟨h1, h2⟩ := ih s0 (max e0 e2) blk hblk
        constructor
        · rcases h1 with h | ⟨iv, hiv, hiveq⟩
          · exact Or.inl h
          · exact Or.inr ⟨iv, List.mem_cons_of_mem _ hiv, hiveq⟩
        · rcases h2 with h | ⟨iv, hiv, hiveq⟩
          · rcases max_choice e0 e2 with hm | hm
            · exact Or.inl (h.trans hm)
            · exact Or.inr ⟨(s2, e2), List.mem_cons_self _ _, (h.trans hm).symm⟩
          · exact Or.inr ⟨iv, List.mem_cons_of_mem _ hiv, hiveq⟩
      · rw [show splitBlocksGo gapT s0 e0 ((s2, e2) :: rest)
            = (s0, e0) :: splitBlocksGo gapT s2 e2 rest from by simp [splitBlocksGo, hgap]] at hblk
        rcases List.mem_cons.mp hblk with heq | hmem
        · subst heq
          exact ⟨Or.inl rfl, Or.inl rfl⟩
        · obtain ⟨h1, h2⟩ := ih s2 e2 blk hmem
          constructor
          · rcases h1 with h | ⟨iv, hiv, hiveq⟩
            · exact Or.inr ⟨(s2, e2), List.mem_cons_self _ _, h.symm⟩
            · exact Or.inr ⟨iv, List.mem_cons_of_mem _ hiv, hiveq⟩
          · rcases h2 with h | ⟨iv, hiv, hiveq⟩
            · exact Or.inr ⟨(s2, e2), List.mem_cons_self _ _, h.symm⟩
            · exact Or.inr ⟨iv, List.mem_cons_of_mem _ hiv, hiveq⟩

/-- Both bounds of every maximal block are bounds of actual intervals of
the list. -/
theorem splitBlocks_endpoints (gapT : Nat) (l : List (Nat × Nat)) :
    ∀ blk ∈ splitBlocks gapT l,
      (∃ iv ∈ l, iv.1 = blk.1) ∧ (∃ iv ∈ l, iv.2 = blk.2) := by
  cases l with
  | nil =>
      intro blk hblk
      cases hblk
  | cons hd rest =>
      intro blk hblk
      obtain ⟨s, e⟩ := hd
      have H := splitBlocksGo_endpoints gapT rest s e blk hblk
      constructor
      · rcases H.1 with h | ⟨iv, hiv, hiveq⟩
        · exact ⟨(s, e), List.mem_cons_self _ _, h.symm⟩
        · exact ⟨iv, List.mem_cons_of_mem _ hiv, hiveq⟩
      · rcases H.2 with h | ⟨iv, hiv, hiveq⟩
        · exact ⟨(s, e), List.mem_cons_self _ _, h.symm⟩
        · exact ⟨iv, List.mem_cons_of_mem _ hiv, hiveq⟩

/-- The explicit standard normal density equals Mathlib's gaussian density
with mean `0` and variance `1`. -/
theorem normPdf_eq_gaussianPDFReal (x : ℝ) :
    normPdf x = ProbabilityTheory.gaussianPDFReal 0 1 x := by
  rw [normPdf, ProbabilityTheory.gaussianPDFReal]
  simp only [NNReal.coe_one, mul_one, sub_zero]
  rw [div_eq_inv_mul]

/-! ## Claim theorems -/

/-- C4: consolidating the singleton list `[D]` under any combination mode
whose fraction is valid (`f ∈ (0, 1]`) returns a defect set
pixel-coverage-equal to `D`. -/
theorem c4_consolidator_identity (D : DefectSet) (mode : CombinationMode)
    (hf : fractionValid mode) (p : Nat × Nat) :
    consolidatePixel mode [D] p = setCovers D p := by
  have hc : countCovering [D] p = if setCovers D p then 1 else 0 := by
    cases h : setCovers D p <;> simp [countCovering, h]
  cases mode with
  | AND => cases h : setCovers D p <;> simp [consolidatePixel, hc, h]
  | OR => cases h : setCovers D p <;> simp [consolidatePixel, hc, h]
  | FRACTION f =>
      obtain ⟨hf0, hf1⟩ := hf
      cases h : setCovers D p <;> simp [consolidatePixel, hc, h]
      · linarith
      · linarith

/-- Witness for C4 at a concrete defect set, pixel and fraction. -/
theorem c4_consolidator_identity_witness :
    consolidatePixel (CombinationMode.FRACTION (17/20)) [[Box.mk 2 3 4 5]] (2, 3)
      = setCovers [Box.mk 2 3 4 5] (2, 3) :=
  c4_consolidator_identity [Box.mk 2 3 4 5] (CombinationMode.FRACTION (17/20))
    (by constructor <;> norm_num) (2, 3)

/-- C5: consolidating `N ≥ 1` identical copies of a defect set under `AND`
or under `OR` returns a defect set pixel-coverage-equal to it. -/
theorem c5_consolidator_duplication (D : DefectSet) (N : Nat) (hN : 1 ≤ N) (p : Nat × Nat) :
    consolidatePixel CombinationMode.AND (List.replicate N D) p = setCovers D p
      ∧ consolidatePixel CombinationMode.OR (List.replicate N D) p = setCovers D p := by
  have hc := countCovering_replicate N D p
  constructor <;> cases h : setCovers D p <;>
    simp [consolidatePixel, hc, h, List.length_replicate] <;> omega

/-- Witness for C5 with three copies of a concrete defect set. -/
theorem c5_consolidator_duplication_witness :
    consolidatePixel CombinationMode.AND (List.replicate 3 [Box.mk 2 3 4 5]) (2, 3)
        = setCovers [Box.mk 2 3 4 5] (2, 3)
      ∧ consolidatePixel CombinationMode.OR (List.replicate 3 [Box.mk 2 3 4 5]) (2, 3)
        = setCovers [Box.mk 2 3 4 5] (2, 3) :=
  c5_consolidator_duplication [Box.mk 2 3 4 5] 3 (by norm_num) (2, 3)

/-- C3: under `FRACTION f` a pixel is defective exactly when
`f ≤ c / N`; with ten copies of `D` and fraction `0.85`, dropping the last
box from one copy leaves the result pixel-coverage-equal to `D`
(`9/10 ≥ 0.85`), while dropping it from two copies changes the result at
any pixel `q` only the dropped box covered (`8/10 < 0.85`). -/
theorem c3_fraction_threshold_boundary (D : DefectSet) (q : Nat × Nat)
    (hq' : setCovers D.dropLast q = false) (hq : setCovers D q = true) :
    (∀ (f : ℚ) (sets : List DefectSet) (p : Nat × Nat),
        consolidatePixel (CombinationMode.FRACTION f) sets p
          = decide (f ≤ (countCovering sets p : ℚ) / (sets.length : ℚ)))
      ∧ (∀ p : Nat × Nat,
          consolidatePixel (CombinationMode.FRACTION (17/20))
              (List.replicate 9 D ++ [D.dropLast]) p = setCovers D p)
      ∧ consolidatePixel (CombinationMode.FRACTION (17/20))
          (List.replicate 8 D ++ List.replicate 2 D.dropLast) q ≠ setCovers D q := by
  refine ⟨fun f sets p => rfl, fun p => ?_, ?_⟩
  · have hlen : (List.replicate 9 D ++ [D.dropLast]).length = 10 := by simp
    have hc := countCovering_replicate_append 9 D [D.dropLast] p
    cases h : setCovers D p with
    | false =>
        have h' : setCovers D.dropLast p = false := setCovers_dropLast_false D p h
        have hc0 : countCovering (List.replicate 9 D ++ [D.dropLast]) p = 0 := by
          simp [hc, h, countCovering, h']
        simp only [consolidatePixel, hc0, hlen]
        norm_num
    | true =>
        cases h' : setCovers D.dropLast p with
        | false =>
            have hc9 : countCovering (List.replicate 9 D ++ [D.dropLast]) p = 9 := by
              simp [hc, h, countCovering, h']
            simp only [consolidatePixel, hc9, hlen]
            norm_num
        | true =>
            have hc10 : countCovering (List.replicate 9 D ++ [D.dropLast]) p = 10 := by
              simp [hc, h, countCovering, h']
            simp only [consolidatePixel, hc10, hlen]
            norm_num
  · have hlen : (List.replicate 8 D ++ List.replicate 2 D.dropLast).length = 10 := by simp
    have hc8 : countCovering (List.replicate 8 D ++ List.replicate 2 D.dropLast) q = 8 := by
      rw [countCovering_replicate_append 8 D (List.replicate 2 D.dropLast) q,
        countCovering_replicate 2 D.dropLast q, hq, hq']
      simp
    simp only [consolidatePixel, hc8, hlen, hq]
    norm_num

/-- Witness for C3: a two-box defect set whose last box owns pixel
`(3, 4)` exclusively; after two removals that pixel is no longer
defective. -/
theorem c3_fraction_threshold_boundary_witness :
    consolidatePixel (CombinationMode.FRACTION (17/20))
        (List.replicate 8 [Box.mk 0 0 1 1, Box.mk 3 4 2 2]
          ++ List.replicate 2 [Box.mk 0 0 1 1, Box.mk 3 4 2 2].dropLast) (3, 4)
      ≠ setCovers [Box.mk 0 0 1 1, Box.mk 3 4 2 2] (3, 4) :=
  (c3_fraction_threshold_boundary [Box.mk 0 0 1 1, Box.mk 3 4 2 2] (3, 4)
    (by decide) (by decide)).2.2

/-- C9 (code bug): on the odd-length input `[100, 101, 102]` with ids
`[10, 11, 12]`, `arrangeFlatsByExpId` leaves the exposure with the largest
id alone under key `1` — a partially populated pair of length `1`, not
`2`, contradicting the claim (and the function's own docstring, which
promises only fully populated pairs). -/
theorem c9_arrangeFlatsByExpId_odd :
    arrangeFlatsByExpId [100, 101, 102] [10, 11, 12]
        = [(0, [(100, 10), (101, 11)]), (1, [(102, 12)])]
      ∧ (arrangeFlatsByExpId [100, 101, 102] [10, 11, 12]).map
          (fun kv => kv.2.length) = [2, 1] := by
  constructor <;> rfl

/-- C10: `irlsFit` raises `RuntimeError` for every `weightType` outside
the eight recognized names, and when it does so exactly one `fitLeastSq`
call — the initial least-squares fit — has already completed. -/
theorem c10_irlsFit_unknown_weightType (weightType : String)
    (h : weightType ∉ recognizedWeightTypes) :
    irlsFit weightType = Except.error 1 := by
  have hne : weightType ≠ "Cauchy" ∧ weightType ≠ "Anderson" ∧ weightType ≠ "bisquare"
      ∧ weightType ≠ "box" ∧ weightType ≠ "Welsch" ∧ weightType ≠ "Huber"
      ∧ weightType ≠ "logistic" ∧ weightType ≠ "Fair" := by
    simpa [recognizedWeightTypes, not_or] using h
  obtain ⟨h1, h2, h3, h4, h5, h6, h7, h8⟩ := hne
  have hstep : irlsWeightStep weightType = false := by
    simp [irlsWeightStep, h1, h2, h3, h4, h5, h6, h7, h8]
  simp [irlsFit, irlsLoop, hstep]

/-- Witness for C10 at the unknown weight type `"banana"`. -/
theorem c10_irlsFit_unknown_weightType_witness :
    irlsFit "banana" = Except.error 1 :=
  c10_irlsFit_unknown_weightType "banana" (by decide)

/-- C7 (counterexample): on a `1 × 1` grid with margins `hEdge = 1`,
`vEdge = 0` the whole (single-pixel) grid is flagged EDGE, so the count is
`1`, while the claimed formula `2 W vEdge + 2 H hEdge - 4 hEdge vEdge`
gives `2`; the claim's unrestricted quantification over margins fails. -/
theorem c7_edge_count_counterexample :
    countMaskedBool 1 1 (setEdgeBits 1 1 1 0 emptyEdgeMask)
      ≠ 2 * 1 * 0 + 2 * 1 * 1 - 4 * 1 * 0 := by
  decide

/-- C7 (amended): when the margins fit the grid (`2 hEdge ≤ W` and
`2 vEdge ≤ H`), applying the edge masker to a clear EDGE plane flags
exactly `2 W vEdge + 2 H hEdge - 4 hEdge vEdge` pixels, and re-applying
the edge masker to any mask changes nothing (the bit is OR-ed), so the
count stays the same. -/
theorem c7_edge_pixel_count (W H hE vE : Nat) (m : Nat → Nat → Bool)
    (h1 : 2 * hE ≤ W) (h2 : 2 * vE ≤ H) :
    countMaskedBool W H (setEdgeBits W H hE vE emptyEdgeMask)
        = 2 * W * vE + 2 * H * hE - 4 * hE * vE
      ∧ setEdgeBits W H hE vE (setEdgeBits W H hE vE m) = setEdgeBits W H hE vE m := by
  constructor
  · have hpred : countMaskedBool W H (setEdgeBits W H hE vE emptyEdgeMask)
        = ((Finset.range W ×ˢ Finset.range H).filter
            (fun p => isEdgePixel W H hE vE p.1 p.2 = true)).card := rfl
    have hpart := Finset.filter_card_add_filter_neg_card_eq_card
      (s := Finset.range W ×ˢ Finset.range H)
      (p := fun p => isEdgePixel W H hE vE p.1 p.2 = true)
    rw [card_filter_interior W H hE vE h1 h2, Finset.card_product,
      Finset.card_range, Finset.card_range] at hpart
    obtain ⟨a, ha⟩ := Nat.exists_eq_add_of_le h1
    obtain ⟨b, hb⟩ := Nat.exists_eq_add_of_le h2
    subst ha hb
    have hsub1 : 2 * hE + a - 2 * hE = a := by omega
    have hsub2 : 2 * vE + b - 2 * vE = b := by omega
    rw [hsub1, hsub2] at hpart
    have hexpand : (2 * hE + a) * (2 * vE + b)
        = (4 * hE * vE + 2 * hE * b + 2 * a * vE) + a * b := by ring
    rw [hexpand] at hpart
    have hcard : ((Finset.range (2 * hE + a) ×ˢ Finset.range (2 * vE + b)).filter
          (fun p => isEdgePixel (2 * hE + a) (2 * vE + b) hE vE p.1 p.2 = true)).card
        = 4 * hE * vE + 2 * hE * b + 2 * a * vE := by
      exact Nat.add_right_cancel hpart
    rw [hpred, hcard]
    have hformula : 2 * (2 * hE + a) * vE + 2 * (2 * vE + b) * hE
        = (4 * hE * vE + 2 * hE * b + 2 * a * vE) + 4 * hE * vE := by ring
    rw [hformula, Nat.add_sub_cancel]
  · funext x y
    simp [setEdgeBits, Bool.or_assoc]

/-- Witness for C7 on a `10 × 8` grid with margins `(2, 1)`:
`2·10·1 + 2·8·2 - 4·2·1 = 44` flagged pixels, unchanged on
re-application. -/
theorem c7_edge_pixel_count_witness :
    countMaskedBool 10 8 (setEdgeBits 10 8 2 1 emptyEdgeMask)
        = 2 * 10 * 1 + 2 * 8 * 2 - 4 * 2 * 1
      ∧ setEdgeBits 10 8 2 1 (setEdgeBits 10 8 2 1 emptyEdgeMask)
        = setEdgeBits 10 8 2 1 emptyEdgeMask :=
  c7_edge_pixel_count 10 8 2 1 emptyEdgeMask (by norm_num) (by norm_num)

/-- C8: querying the masked-pixel count for bit `bitB` counts exactly the
pixels carrying `bitB`: flagging an in-grid region whose pixels did not
yet carry `bitB` with `bitB` raises the count by the region's area and
lowers the good-pixel count by the same area, while flagging the region
with a different bit `bitA` leaves both counts for `bitB` unchanged. -/
theorem c8_good_pixel_counting (W H : Nat) (mask : Nat → Nat → Nat) (r : Box) (bitA bitB : Nat)
    (hin1 : r.x + r.width ≤ W) (hin2 : r.y + r.height ≤ H)
    (hclear : ∀ x y, r.coversB (x, y) = true → (mask x y).testBit bitB = false)
    (hAB : bitA ≠ bitB) :
    countMaskedPixels W H (flagRegion r bitB mask) bitB
        = countMaskedPixels W H mask bitB + r.width * r.height
      ∧ goodPixelCount W H (flagRegion r bitB mask) bitB + r.width * r.height
        = goodPixelCount W H mask bitB
      ∧ countMaskedPixels W H (flagRegion r bitA mask) bitB
        = countMaskedPixels W H mask bitB
      ∧ goodPixelCount W H (flagRegion r bitA mask) bitB
        = goodPixelCount W H mask bitB := by
  have hB : countMaskedPixels W H (flagRegion r bitB mask) bitB
      = countMaskedPixels W H mask bitB + r.width * r.height := by
    unfold countMaskedPixels
    have hcongr : ((Finset.range W ×ˢ Finset.range H).filter
          (fun p => flagRegion r bitB mask p.1 p.2 &&& 2 ^ bitB ≠ 0))
        = ((Finset.range W ×ˢ Finset.range H).filter
          (fun p => r.coversB p = true ∨ mask p.1 p.2 &&& 2 ^ bitB ≠ 0)) := by
      apply Finset.filter_congr
      intro p _
      rw [and_two_pow_ne_zero]
      unfold flagRegion
      by_cases hc : r.coversB (p.1, p.2) = true
      · simp [hc, Nat.testBit_or, Nat.testBit_two_pow_self, and_two_pow_ne_zero]
      · simp only [hc, if_false]
        rw [and_two_pow_ne_zero]
        simp [hc]
    rw [hcongr, Finset.filter_or, Finset.card_union_of_disjoint, card_filter_box W H r hin1 hin2,
      Nat.add_comm]
    rw [Finset.disjoint_left]
    intro p hp1 hp2
    rw [Finset.mem_filter] at hp1 hp2
    have := hclear p.1 p.2 hp1.2
    rw [and_two_pow_ne_zero] at hp2
    rw [hp2.2] at this
    exact absurd this (by simp)
  have hA : countMaskedPixels W H (flagRegion r bitA mask) bitB
      = countMaskedPixels W H mask bitB := by
    unfold countMaskedPixels
    congr 1
    apply Finset.filter_congr
    intro p _
    rw [and_two_pow_ne_zero, and_two_pow_ne_zero]
    unfold flagRegion
    by_cases hc : r.coversB (p.1, p.2) = true
    · simp [hc, Nat.testBit_or, Nat.testBit_two_pow_of_ne hAB]
    · simp [hc]
  have hle : countMaskedPixels W H mask bitB + r.width * r.height ≤ W * H := by
    rw [← hB]
    calc countMaskedPixels W H (flagRegion r bitB mask) bitB
        ≤ (Finset.range W ×ˢ Finset.range H).card := Finset.card_filter_le _ _
      _ = W * H := by rw [Finset.card_product, Finset.card_range, Finset.card_range]
  refine ⟨hB, ?_, hA, ?_⟩
  · unfold goodPixelCount
    rw [hB]
    omega
  · unfold goodPixelCount
    rw [hA]

/-- C1 (counterexample): the claim's qualification rule — at least
`badOnAndOffPixelColumnThreshold` intervals AND every gap at most
`goodPixelColumnGapThreshold` — rejects column 50 of the defect set of
`FindDefectsTaskTestCase` (ten intervals, but the gap of 21 good rows
between rows 33 and 55 exceeds 10), so the merger the claim describes
leaves pixel `(50, 12)` uncovered; the repository's own test
`test_maskBlocksIfIntermitentBadPixelsInColumn` requires the output to
contain the box `(50, 11)–(50, 33)`, which covers that pixel. -/
theorem c1_column_merge_counterexample :
    Box.mk 50 11 1 23 ∈ defectsBlocksInputTrue
      ∧ (Box.mk 50 11 1 23).coversB (50, 12) = true
      ∧ 10 ≤ (columnIntervals allDefectsInput 50).length
      ∧ specQualifies 10 10 allDefectsInput 50 = false
      ∧ specMergerCoverage 10 10 allDefectsInput (50, 12) = false := by
  refine ⟨?_, ?_, ?_, ?_, ?_⟩ <;> decide

/-- C1 (amended): a column qualifies on its interval count alone; a
non-qualifying column passes through unmodified, merging never removes
coverage, a qualifying column is covered exactly by its maximal
gap-bounded blocks, and each block is a width-1 run whose bounds are the
minimum start and maximum end of actual intervals of the column. -/
theorem c1_column_merge_rule (badT gapT : Nat) (ds : DefectSet) (x y : Nat) :
    (countQualifies badT ds x = false →
        amendedMergerCoverage badT gapT ds (x, y) = setCovers ds (x, y))
      ∧ (setCovers ds (x, y) = true → amendedMergerCoverage badT gapT ds (x, y) = true)
      ∧ (countQualifies badT ds x = true →
          (amendedMergerCoverage badT gapT ds (x, y) = true ↔
            ∃ blk ∈ splitBlocks gapT (columnIntervals ds x), blk.1 ≤ y ∧ y ≤ blk.2))
      ∧ (∀ blk ∈ splitBlocks gapT (columnIntervals ds x),
          (∃ iv ∈ columnIntervals ds x, iv.1 = blk.1)
            ∧ (∃ iv ∈ columnIntervals ds x, iv.2 = blk.2)) := by
  refine ⟨?_, ?_, ?_, splitBlocks_endpoints gapT (columnIntervals ds x)⟩
  · intro hq
    simp [amendedMergerCoverage, hq]
  · intro hcov
    by_cases hq : countQualifies badT ds x = true
    · rw [setCovers, List.any_eq_true] at hcov
      obtain ⟨b, hb, hbcov⟩ := hcov
      obtain ⟨hx1, hx2, hy1, hy2⟩ := of_decide_eq_true hbcov
      have ht : touchesColumn b x = true := decide_eq_true ⟨hx1, hx2⟩
      have hmem := mem_columnIntervals ds x b hb ht
      obtain ⟨blk, hblk, h1, h2⟩ := splitBlocks_covers gapT (columnIntervals ds x)
        (columnIntervals_pairwise ds x) (boxInterval b) hmem
      simp only [amendedMergerCoverage, hq, if_true, List.any_eq_true]
      refine ⟨blk, hblk, ?_⟩
      rw [decide_eq_true_eq]
      unfold boxInterval at h1 h2
      exact ⟨le_trans h1 hy1, by omega⟩
    · have hq' : countQualifies badT ds x = false := by
        cases h : countQualifies badT ds x
        · rfl
        · exact absurd h hq
      simp [amendedMergerCoverage, hq', hcov]
  · intro hq
    simp only [amendedMergerCoverage, hq, if_true, List.any_eq_true, decide_eq_true_eq]

/-- Witness for C1's amended theorem: a one-box column passes through
when the threshold is 2 and is merged (still covered) when it is 1. -/
theorem c1_column_merge_rule_witness :
    amendedMergerCoverage 2 0 [Box.mk 5 3 1 2] (5, 3) = setCovers [Box.mk 5 3 1 2] (5, 3)
      ∧ amendedMergerCoverage 1 0 [Box.mk 5 3 1 2] (5, 3) = true :=
  ⟨(c1_column_merge_rule 2 0 [Box.mk 5 3 1 2] 5 3).1 (by decide),
   (c1_column_merge_rule 1 0 [Box.mk 5 3 1 2] 5 3).2.1 (by decide)⟩

set_option maxHeartbeats 4000000 in
/-- C2: on the concrete defect set of `FindDefectsTaskTestCase` with
thresholds `(10, 10)` exactly the columns 25–27 and 50–52 qualify, each
qualifying column merges into one block spanning rows 11–33 and one block
spanning rows 55–74, and the pixels of the isolated boxes (columns 0–2,
15, 33–34, 77–79, 95–96, 100) keep their original coverage. -/
theorem c2_intermittent_column_merge :
    (List.range 110).filter (fun x => countQualifies 10 allDefectsInput x)
        = [25, 26, 27, 50, 51, 52]
      ∧ ([50, 51, 52].all (fun col =>
          splitBlocks 10 (columnIntervals allDefectsInput col) == [(11, 33), (55, 74)])) = true
      ∧ ([25, 26, 27].all (fun col =>
          splitBlocks 10 (columnIntervals allDefectsInput col) == [(11, 33), (55, 74)])) = true
      ∧ ([0, 1, 2, 15, 33, 34, 77, 78, 79, 95, 96, 100].all (fun x =>
          (List.range 128).all (fun y =>
            amendedMergerCoverage 10 10 allDefectsInput (x, y)
              == setCovers allDefectsInput (x, y)))) = true := by
  refine ⟨?_, ?_, ?_, ?_⟩ <;> decide

/-- C6: `sigmaClipCorrection` returns exactly
`1 / sqrt (1 - 2 k φ(k) / (Φ(k) - Φ(-k)))` with `φ` the standard normal
density and `Φ` the standard normal cumulative distribution. -/
theorem c6_sigmaClipCorrection_formula (k : ℝ) :
    sigmaClipCorrection k
      = 1 / Real.sqrt (1 - 2 * k * ProbabilityTheory.gaussianPDFReal 0 1 k
          / (ProbabilityTheory.cdf (ProbabilityTheory.gaussianReal 0 1) k
            - ProbabilityTheory.cdf (ProbabilityTheory.gaussianReal 0 1) (-k))) := by
  rw [sigmaClipCorrection, normPdf_eq_gaussianPDFReal]
  rfl

/-- Witness for C8: a clear `6 × 5` mask, the region `(1, 1)` of extent
`2 × 3`, flagged bit `0` versus queried bit `1`. -/
theorem c8_good_pixel_counting_witness :
    countMaskedPixels 6 5 (flagRegion (Box.mk 1 1 2 3) 1 (fun _ _ => 0)) 1
        = countMaskedPixels 6 5 (fun _ _ => 0) 1 + 2 * 3
      ∧ goodPixelCount 6 5 (flagRegion (Box.mk 1 1 2 3) 1 (fun _ _ => 0)) 1 + 2 * 3
        = goodPixelCount 6 5 (fun _ _ => 0) 1
      ∧ countMaskedPixels 6 5 (flagRegion (Box.mk 1 1 2 3) 0 (fun _ _ => 0)) 1
        = countMaskedPixels 6 5 (fun _ _ => 0) 1
      ∧ goodPixelCount 6 5 (flagRegion (Box.mk 1 1 2 3) 0 (fun _ _ => 0)) 1
        = goodPixelCount 6 5 (fun _ _ => 0) 1 :=
  c8_good_pixel_counting 6 5 (fun _ _ => 0) (Box.mk 1 1 2 3) 0 1
    (by norm_num) (by norm_num) (fun x y _ => by simp) (by norm_num)

end CpPipe
